import Mathlib

/-
Shallow embedding of the beats process-metrics sampler core:
  src/metricbeat/module/system/process/helper.go          (the sampler)
  src/vendor/github.com/elastic/gosigar/sigar_linux_common.go  (the /proc parser)

Modelling conventions:
  - Go uint64 fields are ℕ with explicit wrap-around (mod 2^64) at the
    operations where Go wraps; Go int fields are ℤ.
  - Go float64 arithmetic is modelled exactly over ℚ; the verified claims
    concern values that are exactly representable, and in ℚ division by zero
    yields 0 where Go float division yields an infinity (no claim depends on
    a zero divisor except where noted).
  - Fallible Go functions return Option / Except; a Go runtime panic
    (out-of-range index or slice) is modelled as `none`, a returned Go error
    as an explicit error value.
  - Go maps are modelled as association lists; Go map iteration order is
    unspecified, the model fixes the insertion order of the source list.
  - The compiled pattern matchers (type match.Matcher, built by
    match.Compile in InitProcStats, not part of the analysed claims) are
    abstracted as String → Bool predicates, their compiled form.
-/

/-- Go uint64 subtraction `a - b` with wrap-around modulo 2^64
(used by GetProcCpuPercentage on Cpu.Total values). -/
def usub64 (a b : ℕ) : ℕ :=
  (((a : ℤ) - (b : ℤ)) % (2 ^ 64)).toNat

/-- Go conversion `int64(u)` of a uint64 value `u`: values at or above 2^63
reinterpret as negative. -/
def toInt64 (n : ℕ) : ℤ :=
  if (n : ℤ) % 2 ^ 64 < 2 ^ 63 then (n : ℤ) % 2 ^ 64 else (n : ℤ) % 2 ^ 64 - 2 ^ 64

/-- Modelled from the spec: the percentage rounding helper `system.Round`
(called as Round(val, .5, 4)) lives in metricbeat/module/system, which is not
under src/. Per the spec it rounds to a fixed small number of decimal digits
(4 at every call site here) with round-half-up semantics. -/
def roundPct (q : ℚ) : ℚ :=
  ((⌊q * 10000 + 1 / 2⌋ : ℤ) : ℚ) / 10000

/-- Error kinds distinguished by the Go code: sigar.IsNotImplemented,
os.IsPermission, and everything else. -/
inductive GoErr where
  | notImplemented
  | permission
  | other (msg : String)
deriving DecidableEq, Repr

/-- sigar.ProcMem (only the fields the sampler reads). -/
structure ProcMem where
  Size : ℕ := 0
  Resident : ℕ := 0
  Share : ℕ := 0
  MinorFaults : ℕ := 0
  MajorFaults : ℕ := 0
  PageFaults : ℕ := 0
deriving DecidableEq, Repr

/-- sigar.ProcTime: accumulated CPU milliseconds and start time. -/
structure ProcTime where
  User : ℕ := 0
  Sys : ℕ := 0
  Total : ℕ := 0
  StartTime : ℕ := 0
deriving DecidableEq, Repr

/-- sigar.ProcIO counters (named ProcIoCounters here; a name ending in the
two letters of the Go field would clash with a reserved suffix in this
development, so the Go field `IO` is rendered `Io`). -/
structure ProcIoCounters where
  ReadChar : ℕ := 0
  WriteChar : ℕ := 0
  SysCounterRead : ℕ := 0
  SysCounterWrite : ℕ := 0
  ReadBytes : ℕ := 0
  WriteBytes : ℕ := 0
deriving DecidableEq, Repr

/-- sigar.ProcFDUsage. -/
structure ProcFDUsage where
  Open : ℕ := 0
  SoftLimit : ℕ := 0
  HardLimit : ℕ := 0
deriving DecidableEq, Repr

/-- The zero value of sigar.ProcFDUsage, compared against in
getProcessEvent (`process.FD != (sigar.ProcFDUsage{})`). -/
def fdZero : ProcFDUsage := {}

/-- sigar.ProcExe (resolved symlinks). -/
structure ProcExe where
  Name : String := ""
  Cwd : String := ""
  Root : String := ""
deriving DecidableEq, Repr

/-- sigar.ProcState as produced by the state query: process name, run-state
byte, ids and owning user. -/
structure ProcStateR where
  Name : String := ""
  State : Char := ' '
  Ppid : ℤ := 0
  Pgid : ℤ := 0
  Tty : ℤ := 0
  Priority : ℤ := 0
  Nice : ℤ := 0
  Processor : ℤ := 0
  Username : String := ""
deriving DecidableEq, Repr

/-- The Process entity of helper.go. `Env` distinguishes the Go nil map
(`none`) from a populated (possibly empty) map (`some ...`); `Ctime` is the
time.Now() capture timestamp in nanoseconds. -/
structure Process where
  Pid : ℤ
  Ppid : ℤ := 0
  Pgid : ℤ := 0
  Name : String := ""
  Username : String := ""
  State : String := ""
  CmdLine : String := ""
  Cwd : String := ""
  Mem : ProcMem := {}
  Cpu : ProcTime := {}
  Io : ProcIoCounters := {}
  Ctime : ℤ := 0
  FD : ProcFDUsage := {}
  Env : Option (List (String × String)) := none
  cpuTotalPct : ℚ := 0
deriving DecidableEq, Repr

/-- ProcsMap (Go map[int]*Process) as an association list from pid. -/
def PMap := List (ℤ × Process)

/-- Map lookup (Go `procStats.ProcsMap[pid]`, nil when absent). -/
def pmFind (m : PMap) (pid : ℤ) : Option Process :=
  match m with
  | [] => none
  | (k, v) :: rest => if k = pid then some v else pmFind rest pid

/-- Map store (Go `newProcs[pid] = process`). -/
def pmInsert (m : PMap) (pid : ℤ) (p : Process) : PMap :=
  match m with
  | [] => [(pid, p)]
  | (k, v) :: rest => if k = pid then (k, p) :: rest else (k, v) :: pmInsert rest pid p

/-- Modelled from the spec: the top-N policy struct (config.go is not under
src/): an enabled flag and the two non-negative counts byCPU and byMemory,
exactly the three fields helper.go reads as IncludeTop.Enabled,
IncludeTop.ByCPU and IncludeTop.ByMemory. -/
structure IncludeTopConfig where
  Enabled : Bool := false
  ByCPU : ℕ := 0
  ByMemory : ℕ := 0
deriving DecidableEq, Repr

/-- ProcStats of helper.go; procRegexps and envRegexps hold the compiled
matchers as predicates. -/
structure ProcStats where
  Procs : List String := []
  ProcsMap : PMap := []
  CpuTicks : Bool := false
  EnvWhitelist : List String := []
  CacheCmdLine : Bool := false
  IncludeTop : IncludeTopConfig := {}
  procRegexps : List (String → Bool) := []
  envRegexps : List (String → Bool) := []

/-- getProcState of helper.go: run-state byte to state string. -/
def getProcState (b : Char) : String :=
  if b = 'S' then "sleeping"
  else if b = 'R' then "running"
  else if b = 'D' then "idle"
  else if b = 'T' then "stopped"
  else if b = 'Z' then "zombie"
  else "unknown"

/-- GetProcCpuPercentage of helper.go. `last` is the possibly-nil previous
sample; the current sample pointer is never nil at the call site, so it is
taken by value. dCPU is the Go expression int64(current.Cpu.Total −
last.Cpu.Total) over uint64, dt the elapsed wall time in milliseconds from
the nanosecond timestamps. -/
def GetProcCpuPercentage (last : Option Process) (current : Process) : ℚ :=
  match last with
  | some l =>
      let dCPU : ℤ := toInt64 (usub64 current.Cpu.Total l.Cpu.Total)
      let dt : ℚ := (((current.Ctime - l.Ctime : ℤ)) : ℚ) / 1000000
      roundPct ((dCPU : ℚ) / dt)
  | none => 0

/-- Modelled from the spec: `percentage = (currentTotal − previousTotal) /
elapsedWallMillis`, rounded to the configured precision; elapsed wall millis
computed from the two nanosecond capture timestamps. -/
def specCpuPercentage (prevTotal curTotal : ℕ) (prevT curT : ℤ) : ℚ :=
  roundPct (((curTotal : ℚ) - (prevTotal : ℚ)) / (((curT - prevT : ℤ) : ℚ) / 1000000))

/-- The OS Data Source: one typed query per metric category, at the sigar
API boundary helper.go calls into. `now` is the cycle clock read by
time.Now(); `memTotal` is the total-physical-memory reading behind
memory.GetMemory(); `goos` and `selfPid` feed the runtime.GOOS and
os.Getpid() checks of getProcFDUsage. -/
structure DataSource where
  pids : Except GoErr (List ℤ)
  state : ℤ → Except GoErr ProcStateR
  exe : ℤ → Except GoErr ProcExe
  mem : ℤ → Except GoErr ProcMem
  cpu : ℤ → Except GoErr ProcTime
  io : ℤ → Except GoErr ProcIoCounters
  args : ℤ → Except GoErr (List String)
  fd : ℤ → Except GoErr ProcFDUsage
  env : ℤ → Except GoErr (List (String × String))
  memTotal : Except GoErr ℕ
  now : ℤ := 0
  goos : String := "linux"
  selfPid : ℤ := 0

/-- newProcess of helper.go: build a minimal Process from the state query;
an exe query error is swallowed (zero-value exe, empty Cwd) when it is
not-implemented or permission, fatal for this process otherwise. `none` is
the Go error return (the caller skips the pid). -/
def newProcess (ds : DataSource) (pid : ℤ) (cmdline : String)
    (env : Option (List (String × String))) : Option Process :=
  match ds.state pid with
  | .error _ => none
  | .ok st =>
      let mk : String → Process := fun cwd =>
        { Pid := pid
          Ppid := st.Ppid
          Pgid := st.Pgid
          Name := st.Name
          Username := st.Username
          State := getProcState st.State
          CmdLine := cmdline
          Cwd := cwd
          Ctime := ds.now
          Env := env }
      match ds.exe pid with
      | .error (.other _) => none
      | .error .notImplemented => some (mk "")
      | .error .permission => some (mk "")
      | .ok exe => some (mk exe.Cwd)

/-- getProcFDUsage of helper.go: `some none` is the (nil, nil) return — no
data, no error — produced on FreeBSD for foreign pids, on not-implemented
and on permission errors; `none` is a returned error; `some (some f)` is
data. -/
def getProcFDUsage (ds : DataSource) (pid : ℤ) : Option (Option ProcFDUsage) :=
  if ds.goos = "freebsd" ∧ pid ≠ ds.selfPid then some none
  else
    match ds.fd pid with
    | .error .notImplemented => some none
    | .error .permission => some none
    | .error (.other _) => none
    | .ok f => some (some f)

/-- getProcEnv of helper.go: writes the filtered variables into `out`;
not-implemented and permission errors leave `out` unchanged and return
success; any other error is returned (`none`). A nil filter stores every
variable. -/
def getProcEnv (ds : DataSource) (pid : ℤ) (out : List (String × String))
    (filter : Option (String → Bool)) : Option (List (String × String)) :=
  match ds.env pid with
  | .error .notImplemented => some out
  | .error .permission => some out
  | .error (.other _) => none
  | .ok vars =>
      some (out ++ vars.filter (fun kv =>
        match filter with
        | none => true
        | some f => f kv.1))

/-- getDetails of helper.go: fetch memory, CPU time, io counters, command
line (only when the seeded command line is empty), fd usage and environment
(only when the seeded environment is the nil map). Returns the updated
process and whether the OS command-line query ran; `none` is the Go error
return (the caller logs and skips the process). -/
def getDetails (ds : DataSource) (proc0 : Process)
    (envPredicate : Option (String → Bool)) : Option (Process × Bool) :=
  match ds.mem proc0.Pid with
  | .error _ => none
  | .ok m =>
  match ds.cpu proc0.Pid with
  | .error _ => none
  | .ok c =>
  match ds.io proc0.Pid with
  | .error _ => none
  | .ok ioc =>
  let cmdQueried := proc0.CmdLine = ""
  let cmdline? : Option String :=
    if proc0.CmdLine = "" then
      match ds.args proc0.Pid with
      | .error .notImplemented => some ""
      | .error .permission => none
      | .error (.other _) => none
      | .ok l => some (String.intercalate " " l)
    else some proc0.CmdLine
  match cmdline? with
  | none => none
  | some cmdline =>
  match getProcFDUsage ds proc0.Pid with
  | none => none
  | some fd? =>
  let env? : Option (Option (List (String × String))) :=
    match proc0.Env with
    | some e => some (some e)
    | none => (getProcEnv ds proc0.Pid [] envPredicate).map some
  match env? with
  | none => none
  | some env =>
      some ({ proc0 with
                Mem := m
                Cpu := c
                Io := ioc
                CmdLine := cmdline
                FD := match fd? with
                      | some f => f
                      | none => proc0.FD
                Env := env },
            decide cmdQueried)

/-- GetProcMemPercentage of helper.go: a zero totalPhyMem argument triggers
the live memory.GetMemory query (the `memTotal` reading); a failed reading
yields 0. -/
def GetProcMemPercentage (memTotal : Except GoErr ℕ) (proc : Process)
    (totalPhyMem : ℕ) : ℚ :=
  let total? : Option ℕ :=
    if totalPhyMem = 0 then
      match memTotal with
      | .error _ => none
      | .ok t => some t
    else some totalPhyMem
  match total? with
  | none => 0
  | some t => roundPct ((proc.Mem.Resident : ℚ) / (t : ℚ))

/-- MatchProcess of helper.go: the name matches at least one compiled
process pattern. -/
def MatchProcess (ps : ProcStats) (name : String) : Bool :=
  ps.procRegexps.any (fun reg => reg name)

/-- isWhitelistedEnvVar of helper.go: false on an empty compiled allow-list,
otherwise a match against any pattern. -/
def isWhitelistedEnvVar (p : ProcStats) (varName : String) : Bool :=
  match p.envRegexps with
  | [] => false
  | regs => regs.any (fun reg => reg varName)

/-- The retention operation of the spec: keep exactly the mapping entries
whose key isWhitelistedEnvVar accepts (the filter getProcEnv applies with
the allow-list predicate). -/
def filterEnv (ps : ProcStats) (env : List (String × String)) : List (String × String) :=
  env.filter (fun kv => isWhitelistedEnvVar ps kv.1)

/-- A common.MapStr value (map[string]interface{}): the nested structured
record the Event Assembler emits. `time` is the common.Time value of
unixTimeMsToTime in nanoseconds. -/
inductive MapVal where
  | int (n : ℤ)
  | nat (n : ℕ)
  | str (s : String)
  | rat (q : ℚ)
  | time (t : ℤ)
  | map (entries : List (String × MapVal))

/-- Association-list lookup on MapStr entries (Go map indexing). -/
def alookup (k : String) : List (String × MapVal) → Option MapVal
  | [] => none
  | (k1, v) :: rest => if k1 = k then some v else alookup k rest

/-- Go map assignment m[k] = v: replace the entry if the key exists,
otherwise add it. -/
def setKey (m : List (String × MapVal)) (k : String) (v : MapVal) : List (String × MapVal) :=
  match m with
  | [] => [(k, v)]
  | (k1, v1) :: rest => if k1 = k then (k, v) :: rest else (k1, v1) :: setKey rest k v

/-- common.MapStr.Put with an already-split dotted key path: walk the
subkeys, descending into existing sub-maps and creating fresh ones where the
key is absent or not a map. -/
def putPath (m : List (String × MapVal)) (path : List String) (v : MapVal) :
    List (String × MapVal) :=
  match path with
  | [] => m
  | [k] => setKey m k v
  | k :: rest =>
      match alookup k m with
      | some (.map sub) => setKey m k (.map (putPath sub rest v))
      | _ => setKey m k (.map (putPath [] rest v))

/-- strings.Split on the dot separator (the subkey split of
common.MapStr.Put), as a structural recursion over the characters; `cur`
holds the current piece reversed. -/
def splitDotGo (cur : List Char) : List Char → List String
  | [] => [String.mk cur.reverse]
  | c :: rest =>
      if c = '.' then String.mk cur.reverse :: splitDotGo [] rest
      else splitDotGo (c :: cur) rest

/-- common.MapStr.Put on a dotted key. -/
def mput (m : List (String × MapVal)) (key : String) (v : MapVal) :
    List (String × MapVal) :=
  putPath m (splitDotGo [] key.data) v

/-- Lookup of a top-level key in the produced record. -/
def MapVal.find (v : MapVal) (k : String) : Option MapVal :=
  match v with
  | .map m => alookup k m
  | _ => none

/-- unixTimeMsToTime of helper.go: time.Unix(0, int64(unixTimeMs*1000000)),
with Go uint64 multiplication wrap and the int64 reinterpretation. -/
def unixTimeMsToTime (unixTimeMs : ℕ) : MapVal :=
  .time (toInt64 ((unixTimeMs * 1000000) % 2 ^ 64))

/-- getProcessEvent of helper.go: the Event Assembler. The memory-total
reading `memTotal` is the external memory.GetMemory query performed by
GetProcMemPercentage when its totalPhyMem argument is 0, made explicit. -/
def getProcessEvent (ps : ProcStats) (memTotal : Except GoErr ℕ)
    (process : Process) : MapVal :=
  let proc : List (String × MapVal) :=
    [("pid", .int process.Pid),
     ("ppid", .int process.Ppid),
     ("pgid", .int process.Pgid),
     ("name", .str process.Name),
     ("state", .str process.State),
     ("username", .str process.Username),
     ("memory", .map
       [("size", .nat process.Mem.Size),
        ("rss", .map
          [("bytes", .nat process.Mem.Resident),
           ("pct", .rat (GetProcMemPercentage memTotal process 0))]),
        ("share", .nat process.Mem.Share)]),
     ("io", .map
       [("read_char", .nat process.Io.ReadChar),
        ("write_char", .nat process.Io.WriteChar),
        ("read_count", .nat process.Io.SysCounterRead),
        ("write_count", .nat process.Io.SysCounterWrite),
        ("read_bytes", .nat process.Io.ReadBytes),
        ("write_bytes", .nat process.Io.WriteBytes)])]
  let proc := proc ++
    (if process.CmdLine ≠ "" then [("cmdline", MapVal.str process.CmdLine)] else [])
  let proc := proc ++
    (if process.Cwd ≠ "" then [("cwd", MapVal.str process.Cwd)] else [])
  let envList := process.Env.getD []
  let proc := proc ++
    (if 0 < envList.length then
      [("env", MapVal.map (envList.map (fun kv => (kv.1, MapVal.str kv.2))))] else [])
  let proc := proc ++
    [("cpu", .map
      [("total", .map [("pct", .rat process.cpuTotalPct)]),
       ("start_time", unixTimeMsToTime process.Cpu.StartTime)])]
  let proc := if ps.CpuTicks then
      mput (mput (mput proc "cpu.user" (.nat process.Cpu.User))
        "cpu.system" (.nat process.Cpu.Sys)) "cpu.total.ticks" (.nat process.Cpu.Total)
    else proc
  let proc := proc ++
    (if process.FD ≠ fdZero then
      [("fd", MapVal.map
        [("open", MapVal.nat process.FD.Open),
         ("limit", MapVal.map
           [("soft", MapVal.nat process.FD.SoftLimit),
            ("hard", MapVal.nat process.FD.HardLimit)])])] else [])
  .map proc

/-- isProcessInSlice of helper.go: pid membership. -/
def isProcessInSlice (processes : List Process) (proc : Process) : Bool :=
  processes.any (fun p => p.Pid = proc.Pid)

/-- The byMemory loop of includeTopProcesses: walk the memory-sorted slice
prefix, appending each process whose pid is not already in the accumulated
result. -/
def appendTopMem (result : List Process) : List Process → List Process
  | [] => result
  | p :: rest =>
      if isProcessInSlice result p then appendTopMem result rest
      else appendTopMem (result ++ [p]) rest

/-- The sort.Slice comparison by descending CPU percentage. -/
def cpuGe (p q : Process) : Prop := q.cpuTotalPct ≤ p.cpuTotalPct

instance : DecidableRel cpuGe := fun _ _ => inferInstanceAs (Decidable (_ ≤ _))

/-- The sort.Slice comparison by descending resident memory. -/
def memGe (p q : Process) : Prop := q.Mem.Resident ≤ p.Mem.Resident

instance : DecidableRel memGe := fun _ _ => inferInstanceAs (Decidable (_ ≤ _))

/-- includeTopProcesses of helper.go. sort.Slice leaves the order of
equal-key elements unspecified; the model fixes one admissible order
(insertion sort, every claim below involves distinct keys). The Go
expression processes[:n] is a runtime panic (slice bounds out of range)
whenever n exceeds the slice length, unless spare backing-array capacity
exists, in which case it exposes elements that are not sampled processes;
both outcomes are modelled as `none` — the Go code has no clamp of n to
len(processes). -/
def includeTopProcesses (ps : ProcStats) (processes : List Process) :
    Option (List Process) :=
  if ¬ps.IncludeTop.Enabled ∨ (ps.IncludeTop.ByCPU = 0 ∧ ps.IncludeTop.ByMemory = 0) then
    some processes
  else
    let step1 : Option (List Process × List Process) :=
      if 0 < ps.IncludeTop.ByCPU then
        let sorted := List.insertionSort cpuGe processes
        if ps.IncludeTop.ByCPU ≤ sorted.length then
          some (sorted.take ps.IncludeTop.ByCPU, sorted)
        else none
      else some ([], processes)
    match step1 with
    | none => none
    | some (result, procs1) =>
        if 0 < ps.IncludeTop.ByMemory then
          let sorted2 := List.insertionSort memGe procs1
          if ps.IncludeTop.ByMemory ≤ sorted2.length then
            some (appendTopMem result (sorted2.take ps.IncludeTop.ByMemory))
          else none
        else some result

/-- The seeding of a new cycle entry from the previous snapshot (the loop
head of GetProcStats): the command line is carried over only under the
CacheCmdLine flag; the environment is carried over whenever the previous
cycle held the pid. -/
def seedFromPrevious (cacheCmdLine : Bool) (prev : Option Process) :
    String × Option (List (String × String)) :=
  match prev with
  | some p => (if cacheCmdLine then p.CmdLine else "", p.Env)
  | none => ("", none)

/-- The per-pid loop body of GetProcStats: seed from the previous snapshot,
build the minimal process, test the name filter, fetch details, compute the
CPU percentage against the previous snapshot, and record the process in the
new snapshot and the output list. Failures skip the pid. -/
def processPid (ps : ProcStats) (ds : DataSource)
    (acc : List Process × PMap) (pid : ℤ) : List Process × PMap :=
  let prev := pmFind ps.ProcsMap pid
  let seed := seedFromPrevious ps.CacheCmdLine prev
  match newProcess ds pid seed.1 seed.2 with
  | none => acc
  | some process =>
      if MatchProcess ps process.Name then
        match getDetails ds process (some (isWhitelistedEnvVar ps)) with
        | none => acc
        | some (proc1, _) =>
            let last := pmFind ps.ProcsMap proc1.Pid
            let proc2 := { proc1 with cpuTotalPct := GetProcCpuPercentage last proc1 }
            (acc.1 ++ [proc2], pmInsert acc.2 proc2.Pid proc2)
      else acc

/-- A whole-cycle failure: a Go error returned to the caller, or a runtime
panic. -/
inductive RunFailure where
  | goError (e : GoErr)
  | panicked
deriving DecidableEq, Repr

/-- GetProcStats of helper.go — one sampling cycle. Returns the event
records (or the cycle failure) together with the ProcsMap state after the
call: an empty pattern list short-circuits; a pid enumeration failure
returns the error with the snapshot untouched; otherwise the snapshot is
replaced by the newly built map and top-N selection plus event assembly run
(the top-N slice panic, if any, happens after the snapshot replacement). -/
def GetProcStats (ps : ProcStats) (ds : DataSource) :
    Except RunFailure (List MapVal) × PMap :=
  if ps.Procs = [] then (.ok [], ps.ProcsMap)
  else
    match ds.pids with
    | .error e => (.error (.goError e), ps.ProcsMap)
    | .ok pids =>
        let built := pids.foldl (processPid ps ds) ([], [])
        match includeTopProcesses ps built.1 with
        | none => (.error .panicked, built.2)
        | some top => (.ok (top.map (getProcessEvent ps ds.memTotal)), built.2)

/-- Whitespace as strings.Fields sees it in these records. -/
def isSpaceCh (c : Char) : Bool := c = ' ' ∨ c = '\t' ∨ c = '\n' ∨ c = '\r'

/-- strings.Fields worker: split on whitespace runs, dropping empties;
`cur` accumulates the current field reversed. -/
def fieldsGo (cur : List Char) : List Char → List (List Char)
  | [] => if cur = [] then [] else [cur.reverse]
  | c :: rest =>
      if isSpaceCh c then
        if cur = [] then fieldsGo [] rest else cur.reverse :: fieldsGo [] rest
      else fieldsGo (c :: cur) rest

/-- strings.Fields of the gosigar parsers. -/
def fieldsOf (l : List Char) : List (List Char) := fieldsGo [] l

/-- strings.SplitAfterN(s, sep, 2) for a one-character separator: the piece
through the first occurrence of sep, and the remainder. When sep does not
occur, SplitAfterN yields a single piece and the index [1] taken by callers is a Go
panic, modelled as `none`. -/
def splitAfterFirst (sep : Char) : List Char → Option (List Char × List Char)
  | [] => none
  | c :: rest =>
      if c = sep then some ([c], rest)
      else
        match splitAfterFirst sep rest with
        | some (a, b) => some (c :: a, b)
        | none => none

/-- Decimal digits value. -/
def digitsVal (ds : List Char) : ℤ :=
  ds.foldl (fun a c => a * 10 + ((c.toNat : ℤ) - ('0'.toNat : ℤ))) 0

/-- strconv.Atoi as the gosigar parser uses it, discarding the error: a
well-formed optionally-signed decimal yields its value, anything else
yields the zero result Go pairs with the error. (Values beyond int64,
where Atoi clamps, do not arise in these records.) -/
def atoi (l : List Char) : ℤ :=
  match l with
  | '+' :: ds => if ds ≠ [] ∧ ds.all Char.isDigit then digitsVal ds else 0
  | '-' :: ds => if ds ≠ [] ∧ ds.all Char.isDigit then -(digitsVal ds) else 0
  | ds => if ds ≠ [] ∧ ds.all Char.isDigit then digitsVal ds else 0

/-- ProcState.Get of sigar_linux_common.go on the raw contents of
/proc/[pid]/stat. The name is cut by strings.SplitAfterN(contents, ")", 2)
— everything up to the FIRST closing parenthesis — then the text after the
first space, stripped of its surrounding markers after checking them; the
remaining fields come from whitespace-splitting the text after that first
closing parenthesis. The /proc/[pid]/status read (getProcStatus) is
supplied pre-parsed as `status`, and user.LookupId as `lookupUser`.
`none` models the Go index panics on malformed input; `some (.error ...)`
the returned errors. -/
def procStateParse (contents : List Char) (status : List (String × String))
    (lookupUser : String → Option String) : Option (Except String ProcStateR) :=
  match splitAfterFirst ')' contents with
  | none => none
  | some (pidAndName, afterParen) =>
  let fields := fieldsOf afterParen
  match splitAfterFirst ' ' pidAndName with
  | none => none
  | some (_, name) =>
  match name with
  | [] => none
  | c :: cs =>
  if c = '(' ∧ (c :: cs).getLast? = some ')' then
    let nm := String.mk cs.dropLast
    match fields[0]? with
    | none => none
    | some f0 =>
    match f0[0]? with
    | none => none
    | some stByte =>
    match fields[1]?, fields[2]?, fields[4]?, fields[15]?, fields[16]?, fields[36]? with
    | some f1, some f2, some f4, some f15, some f16, some f36 =>
        some (
          match status.lookup "Uid" with
          | none => .error "Uid not found in proc status"
          | some uidLine =>
              let uidStrs := fieldsOf uidLine.data
              if uidStrs.length = 4 then
                let uid0 := String.mk (uidStrs.headD [])
                let username :=
                  match lookupUser uid0 with
                  | some u => u
                  | none => uid0
                .ok { Name := nm
                      State := stByte
                      Ppid := atoi f1
                      Pgid := atoi f2
                      Tty := atoi f4
                      Priority := atoi f15
                      Nice := atoi f16
                      Processor := atoi f36
                      Username := username }
              else .error "Uid line did not contain four values")
    | _, _, _, _, _, _ => none
  else some (.error "Malformed process stats")

/-- ProcState.Get on a stat-file string. -/
def ProcStateGet (contents : String) (status : List (String × String))
    (lookupUser : String → Option String) : Option (Except String ProcStateR) :=
  procStateParse contents.data status lookupUser

/-- Projection used to compare assembled events: the memory.rss.pct field. -/
def rssPctQ (v : MapVal) : Option ℚ :=
  match v.find "memory" with
  | some m =>
      match m.find "rss" with
      | some r =>
          match r.find "pct" with
          | some (.rat q) => some q
          | _ => none
      | none => none
  | none => none

/-- A data source stub whose per-pid queries all fail; fixtures below
override the fields a scenario needs. -/
def dsStub : DataSource where
  pids := .ok []
  state := fun _ => .error .permission
  exe := fun _ => .error .permission
  mem := fun _ => .error .permission
  cpu := fun _ => .error .permission
  io := fun _ => .error .permission
  args := fun _ => .error .permission
  fd := fun _ => .error .permission
  env := fun _ => .error .permission
  memTotal := .ok 1

/-- Previous CPU sample: no accumulated CPU time, captured at t = 0 ns. -/
def pCpuPrev : Process := { Pid := 1, Cpu := { Total := 0 }, Ctime := 0 }

/-- Current CPU sample: 500 accumulated CPU ms, captured 1 s later. -/
def pCpuCur : Process := { Pid := 1, Cpu := { Total := 500 }, Ctime := 1000000000 }

/-- Previous sample whose CPU counter is larger than the next one. -/
def pNegPrev : Process := { Pid := 1, Cpu := { Total := 2000 }, Ctime := 0 }

/-- Current sample with a smaller accumulated total than pNegPrev. -/
def pNegCur : Process := { Pid := 1, Cpu := { Total := 1000 }, Ctime := 1000000000 }

/-- Top-N config requesting 10 by CPU with selection enabled. -/
def psTop10 : ProcStats :=
  { Procs := ["x"], IncludeTop := { Enabled := true, ByCPU := 10, ByMemory := 0 } }

/-- Three matched processes, fewer than the requested 10. -/
def procsThree : List Process := [{ Pid := 1 }, { Pid := 2 }, { Pid := 3 }]

/-- Top-N config byCPU=2, byMemory=1 of the spec example. -/
def psTop21 : ProcStats :=
  { Procs := ["x"], IncludeTop := { Enabled := true, ByCPU := 2, ByMemory := 1 } }

/-- The five processes of the spec example: CPU percentages 50,40,30,20,10
and resident memory 5,50,500,1,1. -/
def p8a : Process := { Pid := 1, cpuTotalPct := 50, Mem := { Resident := 5 } }

def p8b : Process := { Pid := 2, cpuTotalPct := 40, Mem := { Resident := 50 } }

def p8c : Process := { Pid := 3, cpuTotalPct := 30, Mem := { Resident := 500 } }

def p8d : Process := { Pid := 4, cpuTotalPct := 20, Mem := { Resident := 1 } }

def p8e : Process := { Pid := 5, cpuTotalPct := 10, Mem := { Resident := 1 } }

/-- The five-process input list of the spec example. -/
def procsFive : List Process := [p8a, p8b, p8c, p8d, p8e]

/-- A configuration with every flag at its zero value. -/
def psPlain : ProcStats := { Procs := ["x"] }

/-- A process resident in 4096 bytes, for the event-assembly comparison. -/
def pRss : Process := { Pid := 9, Mem := { Resident := 4096 } }

/-- Snapshot state before an enumeration failure. -/
def psSnap : ProcStats := { Procs := ["a"], ProcsMap := [(1, { Pid := 1 })] }

/-- A data source whose pid enumeration fails. -/
def dsEnumFail : DataSource := { dsStub with pids := .error (.other "denied") }

/-- Cached previous-cycle process: command line and environment on record. -/
def pPrevC4 : Process := { Pid := 4, CmdLine := "loop", Env := some [("PATH", "x")] }

/-- A data source whose detail queries succeed. -/
def dsDetail : DataSource :=
  { dsStub with
      mem := fun _ => .ok {}
      cpu := fun _ => .ok {}
      io := fun _ => .ok {}
      args := fun _ => .ok ["a", "b"]
      fd := fun _ => .error .notImplemented
      env := fun _ => .ok [] }

/-- A process entering getDetails with a seeded (cached) command line. -/
def pSeeded : Process := { Pid := 2, CmdLine := "go run", Env := some [] }

/-- A data source whose fd query is unsupported. -/
def dsNoFd : DataSource := { dsStub with fd := fun _ => .error .notImplemented }

/-- An allow-list configuration retaining only the key PATH. -/
def psPath : ProcStats := { Procs := ["x"], envRegexps := [fun s => s == "PATH"] }

/-- An environment mapping with one retained and one dropped key. -/
def varsPath : List (String × String) := [("PATH", "/bin"), ("HOME", "/root")]

/-- A data source serving varsPath as the environment of every pid. -/
def dsEnvPath : DataSource := { dsStub with env := fun _ => .ok varsPath }

/-- The stat-record tail used by the name-extraction theorems: run-state R,
ppid 2, pgid 3, tty 0, priority 5, nice 6, processor 7, zeros elsewhere
(37 whitespace-separated fields). -/
def restC5 : List Char :=
  (" R 2 3 0 0 0 0 0 0 0 0 0 0 0 0 5 6 0 0 0 0 0 0 0 0 0 0 0 0 0 0 0 0 0 0 0 7").data

/-- A parsed /proc/[pid]/status map with a four-valued Uid line. -/
def statusC5 : List (String × String) := [("Uid", "0 0 0 0")]

/-- A user-database lookup resolving every uid to root. -/
def lookupUserC5 : String → Option String := fun _ => some "root"

/-- A stat record for a process whose executable name is `a)b` — the name
itself contains the closing parenthesis. -/
def cexC5 : String :=
  "1 (a)b) R 2 3 0 0 0 0 0 0 0 0 0 0 0 0 5 6 0 0 0 0 0 0 0 0 0 0 0 0 0 0 0 0 0 0 0 7"

/-- A data source with a successful state query and an unavailable exe. -/
def dsOkState : DataSource :=
  { dsStub with state := fun _ => .ok {}, exe := fun _ => .error .notImplemented }

/-- The process newProcess builds from dsOkState for pid 5. -/
def procNew5 : Process := { Pid := 5, State := "unknown" }

/-- The record the parser produces on cexC5 (name truncated at the first
closing parenthesis, the run-state byte read from inside the name). -/
def cexC5Result : ProcStateR :=
  { Name := "a", State := 'b', Ppid := 0, Pgid := 2, Tty := 0, Priority := 0,
    Nice := 5, Processor := 0, Username := "root" }

theorem roundPct_nonneg (q : ℚ) (h : 0 ≤ q) : 0 ≤ roundPct q := by
  unfold roundPct
  apply div_nonneg _ (by norm_num)
  have harg : (0 : ℚ) ≤ q * 10000 + 1 / 2 := by linarith
  exact_mod_cast Int.floor_nonneg.mpr harg

theorem toInt64_usub64 (a b : ℕ) (ha : a < 2 ^ 64) (hb : b < 2 ^ 64)
    (hlow : -(2 ^ 63) ≤ (a : ℤ) - (b : ℤ)) (hhigh : (a : ℤ) - (b : ℤ) < 2 ^ 63) :
    toInt64 (usub64 a b) = (a : ℤ) - b := by
  have hnn : (0 : ℤ) ≤ ((a : ℤ) - (b : ℤ)) % 2 ^ 64 := Int.emod_nonneg _ (by norm_num)
  simp only [toInt64, usub64, Int.toNat_of_nonneg hnn]
  split_ifs <;> omega

/-- C2: with a previous sample for the pid, GetProcCpuPercentage is the
specified quotient of the CPU-time delta by the elapsed wall milliseconds
between the two capture timestamps, rounded to the fixed precision
(provided the uint64 delta does not overflow the int64 reinterpretation);
with no previous sample it is exactly 0. -/
theorem getProcCpuPercentage_formula (l c : Process)
    (hl : l.Cpu.Total < 2 ^ 64) (hc : c.Cpu.Total < 2 ^ 64)
    (hlow : -(2 ^ 63) ≤ (c.Cpu.Total : ℤ) - (l.Cpu.Total : ℤ))
    (hhigh : (c.Cpu.Total : ℤ) - (l.Cpu.Total : ℤ) < 2 ^ 63) :
    GetProcCpuPercentage (some l) c
      = specCpuPercentage l.Cpu.Total c.Cpu.Total l.Ctime c.Ctime
    ∧ ∀ p : Process, GetProcCpuPercentage none p = 0 := by
  refine ⟨?_, fun p => rfl⟩
  simp only [GetProcCpuPercentage, specCpuPercentage,
    toInt64_usub64 c.Cpu.Total l.Cpu.Total hc hl hlow hhigh]
  push_cast
  ring_nf

theorem getProcCpuPercentage_formula_witness :
    (GetProcCpuPercentage (some pCpuPrev) pCpuCur
       = specCpuPercentage pCpuPrev.Cpu.Total pCpuCur.Cpu.Total pCpuPrev.Ctime pCpuCur.Ctime
     ∧ ∀ p : Process, GetProcCpuPercentage none p = 0)
    ∧ GetProcCpuPercentage (some pCpuPrev) pCpuCur = 1 / 2 :=
  ⟨getProcCpuPercentage_formula pCpuPrev pCpuCur (by decide) (by decide)
     (by decide) (by decide),
   by norm_num [GetProcCpuPercentage, pCpuPrev, pCpuCur, usub64, toInt64, roundPct]⟩

/-- C3 counterexample: a pid whose accumulated CPU total decreased between
samples (2000 ms down to 1000 ms over one second of wall clock) yields a
CPU percentage of −1 — the stored percentage is not ≥ 0. -/
theorem getProcCpuPercentage_negative_cex :
    ¬ (0 ≤ GetProcCpuPercentage (some pNegPrev) pNegCur) := by
  have hval : GetProcCpuPercentage (some pNegPrev) pNegCur = -1 := by
    norm_num [GetProcCpuPercentage, pNegPrev, pNegCur, usub64, toInt64, roundPct]
  rw [hval]
  norm_num

/-- C3 amended: whenever the accumulated CPU total did not decrease (and
the int64 reinterpretation does not overflow) and the capture timestamps
strictly increase, the computed percentage is ≥ 0; and the stored value is
always an integer multiple of the fixed precision 1/10000. -/
theorem getProcCpuPercentage_nonneg (l c : Process)
    (hl : l.Cpu.Total < 2 ^ 64) (hc : c.Cpu.Total < 2 ^ 64)
    (hmono : l.Cpu.Total ≤ c.Cpu.Total)
    (hhigh : (c.Cpu.Total : ℤ) - (l.Cpu.Total : ℤ) < 2 ^ 63)
    (ht : l.Ctime < c.Ctime) :
    0 ≤ GetProcCpuPercentage (some l) c
    ∧ ∃ n : ℤ, GetProcCpuPercentage (some l) c = (n : ℚ) / 10000 := by
  have hmono' : (l.Cpu.Total : ℤ) ≤ (c.Cpu.Total : ℤ) := by exact_mod_cast hmono
  have hlow : -(2 ^ 63) ≤ (c.Cpu.Total : ℤ) - (l.Cpu.Total : ℤ) := by omega
  simp only [GetProcCpuPercentage, toInt64_usub64 c.Cpu.Total l.Cpu.Total hc hl hlow hhigh]
  constructor
  · have hdc : (0 : ℚ) ≤ (((c.Cpu.Total : ℤ) - (l.Cpu.Total : ℤ) : ℤ) : ℚ) := by
      exact_mod_cast (by omega : (0 : ℤ) ≤ (c.Cpu.Total : ℤ) - (l.Cpu.Total : ℤ))
    have hdt : (0 : ℚ) ≤ ((c.Ctime - l.Ctime : ℤ) : ℚ) / 1000000 := by
      apply div_nonneg _ (by norm_num)
      exact_mod_cast (by omega : (0 : ℤ) ≤ c.Ctime - l.Ctime)
    exact roundPct_nonneg _ (div_nonneg hdc hdt)
  · exact ⟨_, rfl⟩

theorem getProcCpuPercentage_nonneg_witness :
    0 ≤ GetProcCpuPercentage (some pCpuPrev) pCpuCur
    ∧ ∃ n : ℤ, GetProcCpuPercentage (some pCpuPrev) pCpuCur = (n : ℚ) / 10000 :=
  getProcCpuPercentage_nonneg pCpuPrev pCpuCur (by decide) (by decide) (by decide)
    (by decide) (by decide)

/-- C1: the failing input of the top-N slice bound. With selection enabled
and byCPU=10 over 3 processes, includeTopProcesses slices the 3-element
list to [:10] without clamping — a runtime failure (modelled none), not the
3-element result the sampler contract requires. -/
theorem includeTopProcesses_slice_panic :
    includeTopProcesses psTop10 procsThree = none := by decide

/-- C6: when pid enumeration fails, GetProcStats surfaces that error to the
caller and the retained snapshot is exactly the one from before the cycle —
the failed sweep never replaces the cache. -/
theorem getProcStats_enum_failure (ps : ProcStats) (ds : DataSource) (e : GoErr)
    (hprocs : ps.Procs ≠ []) (hpids : ds.pids = .error e) :
    GetProcStats ps ds = (.error (.goError e), ps.ProcsMap) := by
  simp only [GetProcStats, if_neg hprocs, hpids]

theorem getProcStats_enum_failure_witness :
    GetProcStats psSnap dsEnumFail = (.error (.goError (.other "denied")), psSnap.ProcsMap) :=
  getProcStats_enum_failure psSnap dsEnumFail (.other "denied") (by decide) rfl

/-- C10: retaining environment keys through the compiled allow-list is
idempotent, and the retention getProcEnv performs with the allow-list
predicate is exactly that filter. -/
theorem envWhitelistFilter_idempotent :
    (∀ (ps : ProcStats) (env : List (String × String)),
        filterEnv ps (filterEnv ps env) = filterEnv ps env)
    ∧ (∀ (ds : DataSource) (pid : ℤ) (ps : ProcStats) (vars : List (String × String)),
        ds.env pid = .ok vars →
        getProcEnv ds pid [] (some (isWhitelistedEnvVar ps)) = some (filterEnv ps vars)) := by
  constructor
  · intro ps env
    simp [filterEnv, List.filter_filter]
  · intro ds pid ps vars h
    simp [getProcEnv, h, filterEnv]

theorem envWhitelistFilter_idempotent_witness :
    getProcEnv dsEnvPath 7 [] (some (isWhitelistedEnvVar psPath)) = some (filterEnv psPath varsPath)
    ∧ filterEnv psPath (filterEnv psPath varsPath) = filterEnv psPath varsPath :=
  ⟨envWhitelistFilter_idempotent.2 dsEnvPath 7 psPath varsPath rfl,
   envWhitelistFilter_idempotent.1 psPath varsPath⟩

theorem alookup_append_of_some {k : String} {l₁ l₂ : List (String × MapVal)} {v : MapVal}
    (h : alookup k l₁ = some v) : alookup k (l₁ ++ l₂) = some v := by
  induction l₁ with
  | nil => simp [alookup] at h
  | cons e rest ih =>
      obtain ⟨k1, v1⟩ := e
      by_cases hk : k1 = k
      · simpa [alookup, hk] using h
      · simp only [alookup, if_neg hk, List.cons_append] at h ⊢
        exact ih h

theorem alookup_append_of_none {k : String} {l₁ l₂ : List (String × MapVal)}
    (h : alookup k l₁ = none) : alookup k (l₁ ++ l₂) = alookup k l₂ := by
  induction l₁ with
  | nil => simp
  | cons e rest ih =>
      obtain ⟨k1, v1⟩ := e
      by_cases hk : k1 = k
      · simp [alookup, hk] at h
      · simp only [alookup, if_neg hk, List.cons_append] at h ⊢
        exact ih h

theorem alookup_setKey_ne {k k1 : String} (m : List (String × MapVal)) (v : MapVal)
    (h : k1 ≠ k) : alookup k (setKey m k1 v) = alookup k m := by
  induction m with
  | nil => simp [setKey, alookup, h]
  | cons e rest ih =>
      obtain ⟨k2, v2⟩ := e
      by_cases hk : k2 = k1
      · subst hk
        simp [setKey, alookup, h]
      · simp only [setKey, if_neg hk, alookup]
        by_cases hk2 : k2 = k
        · simp [hk2]
        · simp [hk2, ih]

theorem alookup_putPath_cons {k k1 : String} (rest : List String)
    (m : List (String × MapVal)) (v : MapVal) (h : k1 ≠ k) :
    alookup k (putPath m (k1 :: rest) v) = alookup k m := by
  cases rest with
  | nil => simpa only [putPath] using alookup_setKey_ne m v h
  | cons r rs =>
      simp only [putPath]
      cases halt : alookup k1 m with
      | none => exact alookup_setKey_ne m _ h
      | some mv => cases mv <;> exact alookup_setKey_ne m _ h

/-- C9 amended: the Event Assembler is total — every finalized Process
yields a structured record carrying its pid — and, with the memory-total
reading made an explicit input, it is a function of only the configuration,
the reading and the process; it is NOT independent of external state: the
memory.rss.pct field changes with the live memory query (see the
counterexample). -/
theorem getProcessEvent_total (ps : ProcStats) (mt : Except GoErr ℕ) (p : Process) :
    (∃ entries, getProcessEvent ps mt p = MapVal.map entries)
    ∧ (getProcessEvent ps mt p).find "pid" = some (.int p.Pid) := by
  constructor
  · exact ⟨_, rfl⟩
  · simp only [getProcessEvent, MapVal.find]
    apply alookup_append_of_some
    by_cases hct : ps.CpuTicks
    · simp only [if_pos hct, mput]
      have h1 : splitDotGo [] ("cpu.total.ticks").data = ["cpu", "total", "ticks"] := rfl
      have h2 : splitDotGo [] ("cpu.system").data = ["cpu", "system"] := rfl
      have h3 : splitDotGo [] ("cpu.user").data = ["cpu", "user"] := rfl
      rw [h1, h2, h3]
      rw [alookup_putPath_cons _ _ _ (by decide), alookup_putPath_cons _ _ _ (by decide),
        alookup_putPath_cons _ _ _ (by decide)]
      apply alookup_append_of_some
      apply alookup_append_of_some
      apply alookup_append_of_some
      apply alookup_append_of_some
      rfl
    · simp only [if_neg hct]
      apply alookup_append_of_some
      apply alookup_append_of_some
      apply alookup_append_of_some
      apply alookup_append_of_some
      rfl

/-- C9 counterexample: the same Process under the same configuration
assembles into different records when the external total-physical-memory
query answers differently (4096 vs 8192 bytes): the memory.rss.pct field is
1 in one record and 1/2 in the other — getProcessEvent does depend on
external state through its live memory query. -/
theorem getProcessEvent_memory_reading_dep :
    getProcessEvent psPlain (.ok 4096) pRss ≠ getProcessEvent psPlain (.ok 8192) pRss := by
  intro hEq
  have h1 : rssPctQ (getProcessEvent psPlain (.ok 4096) pRss)
      = some (GetProcMemPercentage (.ok 4096) pRss 0) := rfl
  have h2 : rssPctQ (getProcessEvent psPlain (.ok 8192) pRss)
      = some (GetProcMemPercentage (.ok 8192) pRss 0) := rfl
  have e1 : GetProcMemPercentage (.ok 4096) pRss 0 = 1 := by
    norm_num [GetProcMemPercentage, pRss, roundPct]
  have e2 : GetProcMemPercentage (.ok 8192) pRss 0 = 1 / 2 := by
    norm_num [GetProcMemPercentage, pRss, roundPct]
  rw [hEq, h2, e2] at h1
  rw [e1] at h1
  have : (1 : ℚ) / 2 = 1 := Option.some.inj h1
  norm_num at this

theorem alookup_append_none_none {k : String} {l₁ l₂ : List (String × MapVal)}
    (h₁ : alookup k l₁ = none) (h₂ : alookup k l₂ = none) :
    alookup k (l₁ ++ l₂) = none := by
  rw [alookup_append_of_none h₁]
  exact h₂

theorem alookup_if_singleton_ne {k key : String} (v : MapVal) (c : Prop) [Decidable c]
    (h : key ≠ k) : alookup k (if c then [(key, v)] else []) = none := by
  split <;> simp [alookup, h]

/-- C7: a file-descriptor query answering not-implemented or
permission-denied yields no data and no error (nil, nil); a freshly built
Process carries the zero fd usage; a detail fetch whose fd lookup produced
no data leaves the fd usage untouched; and the assembled record of a
process with zero fd usage has no fd key at all. -/
theorem fdUnavailable_omitted :
    (∀ (ds : DataSource) (pid : ℤ),
        ds.fd pid = .error .notImplemented ∨ ds.fd pid = .error .permission →
        getProcFDUsage ds pid = some none)
    ∧ (∀ (ds : DataSource) (pid : ℤ) (cl : String) (env : Option (List (String × String)))
          (p : Process), newProcess ds pid cl env = some p → p.FD = fdZero)
    ∧ (∀ (ds : DataSource) (proc : Process) (fp : Option (String → Bool)) (r : Process × Bool),
        getProcFDUsage ds proc.Pid = some none → getDetails ds proc fp = some r →
        r.1.FD = proc.FD)
    ∧ (∀ (ps : ProcStats) (mt : Except GoErr ℕ) (p : Process), p.FD = fdZero →
        (getProcessEvent ps mt p).find "fd" = none) := by
  refine ⟨?_, ?_, ?_, ?_⟩
  · intro ds pid h
    unfold getProcFDUsage
    split_ifs
    · rfl
    · rcases h with h | h <;> rw [h]
  · intro ds pid cl env p h
    simp only [newProcess] at h
    split at h
    · exact Option.noConfusion h
    · split at h <;> first
        | exact Option.noConfusion h
        | (cases h; rfl)
  · intro ds proc fp r hfd hdet
    simp only [getDetails, hfd] at hdet
    repeat' split at hdet
    all_goals first
      | exact Option.noConfusion hdet
      | (cases hdet; rfl)
  · intro ps mt p h
    have hfd : ¬ (p.FD ≠ fdZero) := by simp [h]
    simp only [getProcessEvent, MapVal.find, if_neg hfd, List.append_nil]
    by_cases hct : ps.CpuTicks
    · simp only [if_pos hct, mput]
      have h1 : splitDotGo [] ("cpu.total.ticks").data = ["cpu", "total", "ticks"] := rfl
      have h2 : splitDotGo [] ("cpu.system").data = ["cpu", "system"] := rfl
      have h3 : splitDotGo [] ("cpu.user").data = ["cpu", "user"] := rfl
      rw [h1, h2, h3]
      rw [alookup_putPath_cons _ _ _ (by decide), alookup_putPath_cons _ _ _ (by decide),
        alookup_putPath_cons _ _ _ (by decide)]
      apply alookup_append_none_none
      apply alookup_append_none_none
      apply alookup_append_none_none
      apply alookup_append_none_none
      · rfl
      · exact alookup_if_singleton_ne _ _ (by decide)
      · exact alookup_if_singleton_ne _ _ (by decide)
      · exact alookup_if_singleton_ne _ _ (by decide)
      · rfl
    · simp only [if_neg hct]
      apply alookup_append_none_none
      apply alookup_append_none_none
      apply alookup_append_none_none
      apply alookup_append_none_none
      · rfl
      · exact alookup_if_singleton_ne _ _ (by decide)
      · exact alookup_if_singleton_ne _ _ (by decide)
      · exact alookup_if_singleton_ne _ _ (by decide)
      · rfl

theorem fdUnavailable_omitted_witness :
    getProcFDUsage dsNoFd 3 = some none
    ∧ procNew5.FD = fdZero
    ∧ (pSeeded, false).1.FD = pSeeded.FD
    ∧ (getProcessEvent psPlain (.ok 4096) pRss).find "fd" = none :=
  ⟨fdUnavailable_omitted.1 dsNoFd 3 (Or.inl rfl),
   fdUnavailable_omitted.2.1 dsOkState 5 "" none procNew5 (by decide),
   fdUnavailable_omitted.2.2.1 dsDetail pSeeded none (pSeeded, false) rfl (by decide),
   fdUnavailable_omitted.2.2.2 psPlain (.ok 4096) pRss (by decide)⟩

/-- C4 counterexample: with the cache-enablement flag OFF and a previous
sample for the pid on record, the new cycle entry is still seeded with the
cached environment (while the command line is not) — the environment
carry-over is not governed by CacheCmdLine. -/
theorem seed_env_ignores_cache_flag :
    (seedFromPrevious false (some pPrevC4)).2 = some [("PATH", "x")]
    ∧ (seedFromPrevious false (some pPrevC4)).2 ≠ none
    ∧ (seedFromPrevious false (some pPrevC4)).1 = "" := by decide

/-- C4 amended: the command line is seeded from the previous cycle entry
exactly when CacheCmdLine is set, while the environment is seeded whenever
a previous entry exists, regardless of the flag; a detail fetch queries the
OS for the command line exactly when the seeded command line is empty, and
a nonempty seeded command line is kept unchanged — so with caching enabled
and a nonempty cached command line, the second of two consecutive cycles
performs no command-line query (at most one across both). -/
theorem cmdline_cache_semantics :
    (∀ (p : Process) (b : Bool),
        seedFromPrevious b (some p) = (if b then p.CmdLine else "", p.Env))
    ∧ (∀ (ds : DataSource) (proc : Process) (fp : Option (String → Bool)) (r : Process × Bool),
        getDetails ds proc fp = some r → (r.2 = true ↔ proc.CmdLine = ""))
    ∧ (∀ (ds : DataSource) (proc : Process) (fp : Option (String → Bool)) (r : Process × Bool),
        getDetails ds proc fp = some r → proc.CmdLine ≠ "" → r.1.CmdLine = proc.CmdLine) := by
  refine ⟨?_, ?_, ?_⟩
  · intro p b
    cases b <;> rfl
  · intro ds proc fp r hdet
    simp only [getDetails] at hdet
    repeat' split at hdet
    all_goals first
      | exact Option.noConfusion hdet
      | (cases hdet; simp [decide_eq_true_eq])
  · intro ds proc fp r hdet hne
    simp only [getDetails, if_neg hne] at hdet
    repeat' split at hdet
    all_goals first
      | exact Option.noConfusion hdet
      | (cases hdet; rfl)

theorem cmdline_cache_semantics_witness :
    seedFromPrevious true (some pPrevC4) = (pPrevC4.CmdLine, pPrevC4.Env)
    ∧ ((pSeeded, false).2 = true ↔ pSeeded.CmdLine = "")
    ∧ (pSeeded, false).1.CmdLine = pSeeded.CmdLine :=
  ⟨by simpa using cmdline_cache_semantics.1 pPrevC4 true,
   cmdline_cache_semantics.2.1 dsDetail pSeeded none (pSeeded, false) (by decide),
   cmdline_cache_semantics.2.2 dsDetail pSeeded none (pSeeded, false) (by decide) (by decide)⟩

theorem isProcessInSlice_false_iff (l : List Process) (p : Process) :
    isProcessInSlice l p = false ↔ p.Pid ∉ l.map Process.Pid := by
  simp only [isProcessInSlice, List.any_eq_false, decide_eq_true_eq, List.mem_map]
  push_neg
  constructor
  · intro h q hq
    exact fun hc => h q hq hc
  · intro h q hq
    exact fun hc => h q hq hc

theorem appendTopMem_mem (rest : List Process) (result : List Process) (p : Process)
    (hp : p ∈ appendTopMem result rest) :
    p ∈ result ∨ isProcessInSlice result p = false := by
  induction rest generalizing result with
  | nil => exact Or.inl hp
  | cons q rs ih =>
      simp only [appendTopMem] at hp
      by_cases hq : isProcessInSlice result q
      · rw [if_pos hq] at hp
        exact ih result hp
      · rw [if_neg hq] at hp
        rcases ih (result ++ [q]) hp with hmem | hfalse
        · rcases List.mem_append.mp hmem with hl | hr
          · exact Or.inl hl
          · have hpq : p = q := by simpa using hr
            subst hpq
            exact Or.inr (Bool.not_eq_true _ ▸ hq)
        · refine Or.inr ?_
          rw [isProcessInSlice_false_iff] at hfalse ⊢
          intro hc
          exact hfalse (by simpa using Or.inl hc)

theorem appendTopMem_nodup (rest : List Process) (result : List Process)
    (h : (result.map Process.Pid).Nodup) :
    ((appendTopMem result rest).map Process.Pid).Nodup := by
  induction rest generalizing result with
  | nil => exact h
  | cons q rs ih =>
      simp only [appendTopMem]
      by_cases hq : isProcessInSlice result q
      · rw [if_pos hq]
        exact ih result h
      · rw [if_neg hq]
        apply ih
        have hq' : q.Pid ∉ result.map Process.Pid :=
          (isProcessInSlice_false_iff result q).mp (Bool.not_eq_true _ ▸ hq)
        simp [List.nodup_append, h, hq']

/-- C8: the spec example — byCPU=2, byMemory=1 over five distinct-pid
processes with CPU percentages 50,40,30,20,10 and resident memory
5,50,500,1,1 yields exactly the two CPU leaders followed by the memory
leader, three entries; and in general the byMemory loop appends a process
only when its pid is not already in the accumulated result, preserving
pid-distinctness. -/
theorem includeTopProcesses_example :
    includeTopProcesses psTop21 procsFive = some [p8a, p8b, p8c]
    ∧ (∀ (result rest : List Process) (p : Process), p ∈ appendTopMem result rest →
        p ∈ result ∨ isProcessInSlice result p = false)
    ∧ (∀ (result rest : List Process), (result.map Process.Pid).Nodup →
        ((appendTopMem result rest).map Process.Pid).Nodup) :=
  ⟨by decide,
   fun result rest p hp => appendTopMem_mem rest result p hp,
   fun result rest h => appendTopMem_nodup rest result h⟩

theorem includeTopProcesses_example_witness :
    (p8c ∈ [p8a, p8b] ∨ isProcessInSlice [p8a, p8b] p8c = false)
    ∧ ((appendTopMem [p8a, p8b] [p8c, p8d]).map Process.Pid).Nodup :=
  ⟨includeTopProcesses_example.2.1 [p8a, p8b] [p8c] p8c (by decide),
   includeTopProcesses_example.2.2 [p8a, p8b] [p8c, p8d] (by decide)⟩

theorem splitAfterFirst_append (sep : Char) (p q : List Char) (h : sep ∉ p) :
    splitAfterFirst sep (p ++ sep :: q) = some (p ++ [sep], q) := by
  induction p with
  | nil => simp [splitAfterFirst]
  | cons c cs ih =>
      have hc : ¬ (c = sep) := fun hcc => h (hcc ▸ List.mem_cons_self c cs)
      have hcs : sep ∉ cs := fun hm => h (List.mem_cons_of_mem c hm)
      simp [splitAfterFirst, hc, ih hcs]

/-- C5 amended: for every executable name that does not itself contain the
closing parenthesis, ProcState.Get extracts exactly that name — names
containing spaces (the actual stat field delimiter) included, so the
extraction is not naive field splitting — and parses the run-state and the
numeric fields from the text after the first closing parenthesis. A name
containing the closing parenthesis is truncated at its first occurrence
(see the counterexample): the parser splits at the FIRST closer, not the
matching one. -/
theorem procState_extracts_name (name : List Char) (h : ')' ∉ name) :
    procStateParse ('1' :: ' ' :: '(' :: (name ++ ')' :: restC5)) statusC5 lookupUserC5
      = some (.ok { Name := String.mk name, State := 'R', Ppid := 2, Pgid := 3,
                    Tty := 0, Priority := 5, Nice := 6, Processor := 7,
                    Username := "root" }) := by
  have hp1 : (')') ∉ ('1' :: ' ' :: '(' :: name) := by
    simp only [List.mem_cons]
    push_neg
    exact ⟨by decide, by decide, by decide, h⟩
  have h1 : splitAfterFirst ')' ('1' :: ' ' :: '(' :: (name ++ ')' :: restC5))
      = some (('1' :: ' ' :: '(' :: name) ++ [')'], restC5) := by
    simpa using splitAfterFirst_append ')' ('1' :: ' ' :: '(' :: name) restC5 hp1
  have h2 : splitAfterFirst ' ' ('1' :: ' ' :: '(' :: (name ++ [')']))
      = some (['1', ' '], '(' :: (name ++ [')'])) := by
    simpa using splitAfterFirst_append ' ' ['1'] ('(' :: (name ++ [')'])) (by decide)
  have hlast : ('(' :: (name ++ [')'])).getLast? = some ')' := by
    rw [← List.cons_append, List.getLast?_concat]
  simp only [procStateParse, h1, List.cons_append, List.append_assoc, List.singleton_append,
    h2, hlast, List.dropLast_concat]
  rfl

/-- C5 counterexample: the stat record of a process whose executable name
is a)b — the name contains the field-closing parenthesis. The text between
the start marker and the matching (last) closer is a)b, but ProcState.Get
returns the name "a", cut at the FIRST closing parenthesis, and then reads
the run-state byte from leftover name text, so the claimed extraction does
not hold. -/
theorem procState_first_paren_cex :
    ProcStateGet cexC5 statusC5 lookupUserC5 = some (.ok cexC5Result)
    ∧ cexC5Result.Name = "a"
    ∧ cexC5Result.Name ≠ "a)b"
    ∧ cexC5Result.State ≠ 'R' := by
  refine ⟨rfl, rfl, by decide, by decide⟩

theorem procState_extracts_name_witness :
    procStateParse ('1' :: ' ' :: '(' :: (("my proc").data ++ ')' :: restC5)) statusC5 lookupUserC5
      = some (.ok { Name := String.mk ("my proc").data, State := 'R', Ppid := 2, Pgid := 3,
                    Tty := 0, Priority := 5, Nice := 6, Processor := 7,
                    Username := "root" }) :=
  procState_extracts_name ("my proc").data (by decide)

theorem getProcessEvent_total_witness :
    (∃ entries, getProcessEvent psPlain (.ok 4096) pRss = MapVal.map entries)
    ∧ (getProcessEvent psPlain (.ok 4096) pRss).find "pid" = some (.int pRss.Pid) :=
  getProcessEvent_total psPlain (.ok 4096) pRss
